import Mathlib

/-!
Verification of the orwell reconnaissance pipeline.

This file gives a shallow embedding of the pure cores of the Go sources:
the IP generator's bijective permutation and address enumerators
(`ip-generator/internal/domain/ip.go`), the batch dispatcher
(`ip-generator/internal/application/service.go`), the scan engine's message
handling (`port-scanner/internal/infrastructure/queue/rabbitmq.go`), the
ping-result analysis (ping service), the ZGrab result-priority selector
(`port-scanner/internal/infrastructure/banner/zgrab.go`), and the per-IP
scanner (`ScannerService.ScanIP`).  Machine 32-bit arithmetic is embedded as
`Nat` with explicit `% 2^32`.  External effects (the random source, the TCP
network, the process runner, the message bus) are parameters of the
embedded functions; the theorems quantify over them.
-/

namespace Orwell

/-- `2^32`, the size of the IPv4 address space. -/
def u32size : Nat := 4294967296

/-- `IPPermutation.permute32` from `ip-generator/internal/domain/ip.go`:
a fixed sequence of multiply (mod `2^32`) and XOR-shift rounds,
parameterised by the seed. -/
def permute32 (seed x : Nat) : Nat :=
  let x1 := ((x * 0x7fffffff) % u32size) ^^^ seed
  let x2 := x1 ^^^ (x1 >>> 16)
  let x3 := (x2 * 0x85ebca6b) % u32size
  let x4 := x3 ^^^ (x3 >>> 13)
  let x5 := (x4 * 0xc2b2ae35) % u32size
  x5 ^^^ (x5 >>> 16)

/-- Explicit inverse of `permute32`, used to prove injectivity.  The
multiplicative constants are the inverses mod `2^32` of the ones in
`permute32`, and each XOR-shift round is undone by repeated XOR-shifts. -/
def invPermute32 (seed y : Nat) : Nat :=
  let y5 := y ^^^ (y >>> 16)
  let y4 := (y5 * 0x7ed1b41d) % u32size
  let z := y4 ^^^ (y4 >>> 13)
  let y3 := z ^^^ (z >>> 26)
  let y2 := (y3 * 0xa5cb9243) % u32size
  let y1 := y2 ^^^ (y2 >>> 16)
  ((y1 ^^^ seed) * 0x7fffffff) % u32size

theorem shiftRight_xor_distrib (a b k : Nat) :
    (a ^^^ b) >>> k = (a >>> k) ^^^ (b >>> k) := by
  apply Nat.eq_of_testBit_eq
  intro i
  simp [Nat.testBit_shiftRight, Nat.testBit_xor]

theorem shiftRight_eq_zero_of_lt {x w k : Nat} (hx : x < 2 ^ w) (hk : w ≤ k) :
    x >>> k = 0 := by
  rw [Nat.shiftRight_eq_div_pow]
  exact Nat.div_eq_of_lt (lt_of_lt_of_le hx (Nat.pow_le_pow_right (by norm_num) hk))

/-- Undoing `x ^^^ (x >>> 16)` on a 32-bit value: the same XOR-shift again. -/
theorem unxor16 {x : Nat} (hx : x < 2 ^ 32) :
    (x ^^^ (x >>> 16)) ^^^ ((x ^^^ (x >>> 16)) >>> 16) = x := by
  have h32 : x >>> 16 >>> 16 = 0 := by
    rw [← Nat.shiftRight_add]
    exact shiftRight_eq_zero_of_lt hx (by norm_num)
  rw [shiftRight_xor_distrib, h32, Nat.xor_zero, Nat.xor_assoc]
  simp

/-- Undoing `x ^^^ (x >>> 13)` on a 32-bit value: XOR-shift by 13 and
then by 26. -/
theorem unxor13 {x : Nat} (hx : x < 2 ^ 32) :
    (((x ^^^ (x >>> 13)) ^^^ ((x ^^^ (x >>> 13)) >>> 13)) ^^^
      (((x ^^^ (x >>> 13)) ^^^ ((x ^^^ (x >>> 13)) >>> 13)) >>> 26)) = x := by
  have h26 : x >>> 13 >>> 13 = x >>> 26 := by rw [← Nat.shiftRight_add]
  have hz : (x ^^^ (x >>> 13)) ^^^ ((x ^^^ (x >>> 13)) >>> 13) = x ^^^ (x >>> 26) := by
    rw [shiftRight_xor_distrib, h26, Nat.xor_assoc, ← Nat.xor_assoc (x >>> 13),
      Nat.xor_self, Nat.zero_xor]
  rw [hz]
  have h52 : x >>> 26 >>> 26 = 0 := by
    rw [← Nat.shiftRight_add]
    exact shiftRight_eq_zero_of_lt hx (by norm_num)
  rw [shiftRight_xor_distrib, h52, Nat.xor_zero, Nat.xor_assoc]
  simp

/-- Undoing multiplication mod `2^32` by a constant whose modular inverse is
known. -/
theorem unmul {a d x : Nat} (hx : x < u32size) (h : (a * d) % u32size = 1) :
    (((x * a) % u32size) * d) % u32size = x := by
  rw [Nat.mod_mul_mod, Nat.mul_assoc, ← Nat.mul_mod_mod, h, Nat.mul_one,
    Nat.mod_eq_of_lt hx]

theorem xor_lt_u32 {a b : Nat} (ha : a < 2 ^ 32) (hb : b < 2 ^ 32) :
    a ^^^ b < 2 ^ 32 :=
  Nat.xor_lt_two_pow ha hb

theorem shiftRight_lt_u32 {a k : Nat} (ha : a < 2 ^ 32) : a >>> k < 2 ^ 32 :=
  lt_of_le_of_lt (by rw [Nat.shiftRight_eq_div_pow]; exact Nat.div_le_self _ _) ha

theorem u32size_eq : u32size = 2 ^ 32 := by norm_num [u32size]

/-- `invPermute32` is a left inverse of `permute32` on 32-bit inputs. -/
theorem invPermute32_permute32 (seed x : Nat) (hs : seed < u32size)
    (hx : x < u32size) : invPermute32 seed (permute32 seed x) = x := by
  rw [u32size_eq] at hs hx
  have hm1 : (0x7fffffff * 0x7fffffff) % u32size = 1 := by decide
  have hm2 : (0x85ebca6b * 0xa5cb9243) % u32size = 1 := by decide
  have hm3 : (0xc2b2ae35 * 0x7ed1b41d) % u32size = 1 := by decide
  have hpos : 0 < u32size := by decide
  -- names for the intermediate stages of permute32
  set x1 := ((x * 0x7fffffff) % u32size) ^^^ seed with hx1
  have hx1lt : x1 < 2 ^ 32 :=
    xor_lt_u32 (by rw [← u32size_eq]; exact Nat.mod_lt _ hpos) hs
  set x2 := x1 ^^^ (x1 >>> 16) with hx2
  have hx2lt : x2 < 2 ^ 32 := xor_lt_u32 hx1lt (shiftRight_lt_u32 hx1lt)
  set x3 := (x2 * 0x85ebca6b) % u32size with hx3
  have hx3lt : x3 < 2 ^ 32 := by rw [← u32size_eq]; exact Nat.mod_lt _ hpos
  set x4 := x3 ^^^ (x3 >>> 13) with hx4
  have hx4lt : x4 < 2 ^ 32 := xor_lt_u32 hx3lt (shiftRight_lt_u32 hx3lt)
  set x5 := (x4 * 0xc2b2ae35) % u32size with hx5
  have hx5lt : x5 < 2 ^ 32 := by rw [← u32size_eq]; exact Nat.mod_lt _ hpos
  show invPermute32 seed (x5 ^^^ (x5 >>> 16)) = x
  simp only [invPermute32]
  rw [unxor16 hx5lt]
  rw [hx5, unmul (by rw [u32size_eq]; exact hx4lt) hm3]
  rw [hx4, unxor13 hx3lt]
  rw [hx3, unmul (by rw [u32size_eq]; exact hx2lt) hm2]
  rw [hx2, unxor16 hx1lt]
  rw [hx1, Nat.xor_cancel_right]
  exact unmul (by rw [u32size_eq]; exact hx) hm1

/-- Claim C3: for every seed, `permute32` is a bijection on the 32-bit
unsigned integers: for all 32-bit `x` and `y`, `permute32 seed x =
permute32 seed y` implies `x = y`. -/
theorem permute32_injective (seed x y : Nat) (hs : seed < u32size)
    (hx : x < u32size) (hy : y < u32size)
    (h : permute32 seed x = permute32 seed y) : x = y := by
  have := invPermute32_permute32 seed x hs hx
  rw [h, invPermute32_permute32 seed y hs hy] at this
  exact this.symm

/-- Witness for C3: the injectivity theorem applied at seed 7,
inputs 5 and 5. -/
theorem permute32_injective_witness : (5 : Nat) = 5 :=
  permute32_injective 7 5 5 (by decide) (by decide) (by decide) rfl

/-- `isValidPublicIP` from `ip-generator/internal/domain/ip.go`, on the
32-bit integer form of the address: excludes 0.0.0.0/8, 10.0.0.0/8,
127.0.0.0/8, 192.168.0.0/16, 224.0.0.0/4 and 240.0.0.0/4. -/
def isValidPublicIP (ip : Nat) : Bool :=
  if ip ≤ 0x00FFFFFF then false
  else if 0x0A000000 ≤ ip ∧ ip ≤ 0x0AFFFFFF then false
  else if 0x7F000000 ≤ ip ∧ ip ≤ 0x7FFFFFFF then false
  else if 0xC0A80000 ≤ ip ∧ ip ≤ 0xC0A8FFFF then false
  else if 0xE0000000 ≤ ip ∧ ip ≤ 0xEFFFFFFF then false
  else if 0xF0000000 ≤ ip then false
  else true

/-- The 32-bit integer form of the dotted quad `a.b.c.d`. -/
def ipNat (a b c d : Nat) : Nat := a * 16777216 + b * 65536 + c * 256 + d

/-- The skip loop of `GenerateSequentialIPs`: `for !isValidPublicIP(ip) {
increment ip }`.  The per-byte increment of the Go code wraps the whole
address mod `2^32`; the Go loop is unbounded, embedded here with a fuel
argument (`u32size` steps always suffice, see `skipInvalid_valid`). -/
def skipInvalid : Nat → Nat → Nat
  | 0, ip => ip
  | fuel + 1, ip =>
    if isValidPublicIP ip then ip else skipInvalid fuel ((ip + 1) % u32size)

/-- The emission loop of `GenerateSequentialIPs`: skip invalid addresses,
emit, increment, `count` times. -/
def genSeqAux : Nat → Nat → List Nat
  | _, 0 => []
  | ip, count + 1 =>
    let v := skipInvalid u32size ip
    v :: genSeqAux ((v + 1) % u32size) count

/-- `IPGeneratorService.GenerateSequentialIPs` from
`ip-generator/internal/domain/ip.go`, on the integer form of addresses. -/
def GenerateSequentialIPs (startIP count : Nat) : List Nat :=
  genSeqAux startIP count

/-- One iteration of the `GenerateRandomIPs` loop per pseudorandom draw:
permute the draw, skip duplicates, keep only valid public addresses. -/
def genRandomAux (perm : Nat → Nat) (count : Nat) :
    List Nat → List Nat → List Nat → List Nat
  | [], _, acc => acc
  | d :: rest, visited, acc =>
    if count ≤ acc.length then acc
    else
      let p := perm d
      if p ∈ visited then genRandomAux perm count rest visited acc
      else if isValidPublicIP p then
        genRandomAux perm count rest (p :: visited) (acc ++ [p])
      else genRandomAux perm count rest visited acc

/-- `IPGeneratorService.GenerateRandomIPs` from
`ip-generator/internal/domain/ip.go`: the pseudorandom source is embedded
as the list `draws` of 31-bit draws (its length plays the role of the
`count * 100` attempt budget); fewer than `count` accepted addresses is an
error. -/
def GenerateRandomIPs (seed : Nat) (draws : List Nat) (count : Nat) :
    Except String (List Nat) :=
  let ips := genRandomAux (permute32 seed) count draws [] []
  if ips.length < count then .error "could only generate" else .ok ips

/-- If some address reachable from `ip` by incrementing (mod `2^32`) within
the fuel budget is valid, the skip loop stops on a valid address. -/
theorem skipInvalid_valid_of_exists :
    ∀ (fuel ip : Nat), ip < u32size →
      (∃ j, j < fuel ∧ isValidPublicIP ((ip + j) % u32size) = true) →
      isValidPublicIP (skipInvalid fuel ip) = true := by
  intro fuel
  induction fuel with
  | zero => intro ip _ h; obtain ⟨j, hj, _⟩ := h; omega
  | succ f ih =>
    intro ip hip h
    by_cases hv : isValidPublicIP ip = true
    · simp [skipInvalid, hv]
    · obtain ⟨j, hj, hjv⟩ := h
      have hj0 : j ≠ 0 := by
        intro h0
        rw [h0, Nat.add_zero, Nat.mod_eq_of_lt hip] at hjv
        exact hv hjv
      have hstep : ((ip + 1) % u32size + (j - 1)) % u32size =
          (ip + j) % u32size := by
        rw [Nat.mod_add_mod]
        congr 1
        omega
      simp only [skipInvalid, hv, if_false]
      exact ih ((ip + 1) % u32size) (Nat.mod_lt _ (by decide))
        ⟨j - 1, by omega, by rw [hstep]; exact hjv⟩

/-- From any 32-bit start, a valid public address (namely 11.0.0.0) is
reached within `2^32` increments, so the skip loop with fuel `u32size`
always ends on a valid address. -/
theorem skipInvalid_valid (ip : Nat) (hip : ip < u32size) :
    isValidPublicIP (skipInvalid u32size ip) = true := by
  apply skipInvalid_valid_of_exists u32size ip hip
  refine ⟨(0x0B000000 + u32size - ip) % u32size, Nat.mod_lt _ (by decide), ?_⟩
  have h1 : (ip + (0x0B000000 + u32size - ip) % u32size) % u32size =
      (ip + (0x0B000000 + u32size - ip)) % u32size := Nat.add_mod_mod _ _ _
  have h2 : ip + (0x0B000000 + u32size - ip) = 0x0B000000 + u32size := by omega
  rw [h1, h2]
  decide

/-- Every address in a sequential-mode output is a valid public address. -/
theorem genSeqAux_valid :
    ∀ (count startIP a : Nat), startIP < u32size →
      a ∈ genSeqAux startIP count → isValidPublicIP a = true := by
  intro count
  induction count with
  | zero => intro s a _ h; simp [genSeqAux] at h
  | succ n ih =>
    intro s a hs h
    simp only [genSeqAux, List.mem_cons] at h
    rcases h with h | h
    · rw [h]; exact skipInvalid_valid s hs
    · exact ih _ a (Nat.mod_lt _ (by decide)) h

/-- Every address accumulated by the random-mode loop is valid, provided
the already-accumulated ones are. -/
theorem genRandomAux_valid (perm : Nat → Nat) (count : Nat) :
    ∀ (draws visited acc : List Nat),
      (∀ a ∈ acc, isValidPublicIP a = true) →
      ∀ a ∈ genRandomAux perm count draws visited acc,
        isValidPublicIP a = true := by
  intro draws
  induction draws with
  | nil => intro visited acc hacc a ha; exact hacc a ha
  | cons d rest ih =>
    intro visited acc hacc a ha
    simp only [genRandomAux] at ha
    by_cases hc : count ≤ acc.length
    · rw [if_pos hc] at ha; exact hacc a ha
    · rw [if_neg hc] at ha
      by_cases hmem : perm d ∈ visited
      · rw [if_pos hmem] at ha; exact ih visited acc hacc a ha
      · rw [if_neg hmem] at ha
        by_cases hvalid : isValidPublicIP (perm d) = true
        · rw [if_pos hvalid] at ha
          refine ih _ _ ?_ a ha
          intro b hb
          rcases List.mem_append.mp hb with hb | hb
          · exact hacc b hb
          · rw [List.mem_singleton.mp hb]; exact hvalid
        · rw [if_neg hvalid] at ha; exact ih visited acc hacc a ha

/-- Claim C4: every address emitted by the enumerator — random mode and
sequential mode — lies outside all of the excluded ranges 0.0.0.0/8,
10.0.0.0/8, 127.0.0.0/8, 192.168.0.0/16, 224.0.0.0/4 and 240.0.0.0/4
(that is, `isValidPublicIP` holds of it). -/
theorem enumerator_emits_valid_only :
    (∀ (seed count : Nat) (draws l : List Nat) (a : Nat),
        GenerateRandomIPs seed draws count = .ok l → a ∈ l →
        isValidPublicIP a = true) ∧
    (∀ (startIP count a : Nat), startIP < u32size →
        a ∈ GenerateSequentialIPs startIP count →
        isValidPublicIP a = true) := by
  constructor
  · intro seed count draws l a hok ha
    have : l = genRandomAux (permute32 seed) count draws [] [] := by
      by_cases h : (genRandomAux (permute32 seed) count draws [] []).length < count
      · simp [GenerateRandomIPs, h] at hok
      · simp [GenerateRandomIPs, h] at hok; exact hok.symm
    rw [this] at ha
    exact genRandomAux_valid _ _ draws [] [] (by intro b hb; simp at hb) a ha
  · intro s count a hs ha
    exact genSeqAux_valid count s a hs ha

/-- Witness for C4: random mode with seed 0 on the single draw 2 yields the
valid address 121.149.195.4; sequential mode from 1.0.0.0 yields 1.0.0.0. -/
theorem enumerator_emits_valid_only_witness :
    isValidPublicIP 0x7995c304 = true ∧ isValidPublicIP 0x01000000 = true :=
  ⟨enumerator_emits_valid_only.1 0 1 [2] [0x7995c304] 0x7995c304 rfl
      (by decide),
    enumerator_emits_valid_only.2 0x01000000 1 0x01000000 (by decide)
      (by decide)⟩

/-- Counterexample to claim C7: starting from 9.9.9.250 the sixth successor
is 9.9.10.0 (the third octet carries), not 11.0.0.0 — the excluded block
10.0.0.0/8 is never reached, so the emitted sequence differs from the one
the claim states. -/
theorem seq_from_9_9_9_250_ne_claimed :
    GenerateSequentialIPs (ipNat 9 9 9 250) 10 ≠
      [ipNat 9 9 9 250, ipNat 9 9 9 251, ipNat 9 9 9 252, ipNat 9 9 9 253,
        ipNat 9 9 9 254, ipNat 9 9 9 255, ipNat 11 0 0 0, ipNat 11 0 0 1,
        ipNat 11 0 0 2, ipNat 11 0 0 3] := by
  decide

/-- Claim C7 as amended: sequential-mode generation starting at 9.9.9.250
with count 10 emits exactly 9.9.9.250 … 9.9.9.255 followed by 9.9.10.0 …
9.9.10.3; no excluded range is crossed. -/
theorem seq_from_9_9_9_250 :
    GenerateSequentialIPs (ipNat 9 9 9 250) 10 =
      [ipNat 9 9 9 250, ipNat 9 9 9 251, ipNat 9 9 9 252, ipNat 9 9 9 253,
        ipNat 9 9 9 254, ipNat 9 9 9 255, ipNat 9 9 10 0, ipNat 9 9 10 1,
        ipNat 9 9 10 2, ipNat 9 9 10 3] := by
  decide

/-- `domain.QueueMessage`: the batch message `{ips, batch_id, count}`
shared by the generator and the scanner. -/
structure QueueMessage where
  ips : List String
  batchID : String
  count : Nat
deriving DecidableEq

/-- `numBatches := (count + batchSize - 1) / batchSize` from
`GenerateAndPublishIPs` in `ip-generator/internal/application/service.go`. -/
def numBatches (count batchSize : Nat) : Nat :=
  (count + batchSize - 1) / batchSize

/-- The message-building loop of `GenerateAndPublishIPs`, indexed by the
list of batch indices; `gen` embeds `ipGenerator.GenerateIPs`, which can
fail (early return of the Go loop). -/
def buildMessages (gen : Nat → Except String (List String)) (base : String)
    (count batchSize nb : Nat) : List Nat → Except String (List QueueMessage)
  | [] => .ok []
  | i :: rest =>
    match gen (if i = nb - 1 ∧ count % batchSize ≠ 0 then count % batchSize
               else batchSize) with
    | .error e => .error e
    | .ok ips =>
      match buildMessages gen base count batchSize nb rest with
      | .error e => .error e
      | .ok msgs =>
        .ok ({ ips := ips, batchID := base ++ "-" ++ toString i,
               count := ips.length } :: msgs)

/-- `IPGenerationService.GenerateAndPublishIPs` from
`ip-generator/internal/application/service.go` (the pure part: the messages
that are handed to `PublishBatch`).  `base` embeds the
`"batch-<nanoseconds>"` identifier produced per invocation. -/
def GenerateAndPublishIPs (gen : Nat → Except String (List String))
    (base : String) (count batchSize : Nat) :
    Except String (List QueueMessage) :=
  if count = 0 then .error "count must be greater than 0"
  else
    let bs := if batchSize = 0 then 100 else batchSize
    buildMessages gen base count bs (numBatches count bs)
      (List.range (numBatches count bs))

theorem buildMessages_ok (gen : Nat → Except String (List String))
    (base : String) (count bs nb : Nat)
    (hgen : ∀ n l, gen n = .ok l → l.length = n) :
    ∀ (idxs : List Nat) (msgs : List QueueMessage),
      buildMessages gen base count bs nb idxs = .ok msgs →
      msgs.map QueueMessage.count =
        idxs.map (fun i => if i = nb - 1 ∧ count % bs ≠ 0 then count % bs
                           else bs) ∧
      msgs.map QueueMessage.batchID =
        idxs.map (fun i => base ++ "-" ++ toString i) := by
  intro idxs
  induction idxs with
  | nil =>
    intro msgs h
    simp only [buildMessages] at h
    cases h
    simp
  | cons i rest ih =>
    intro msgs h
    simp only [buildMessages] at h
    rcases hg : gen (if i = nb - 1 ∧ count % bs ≠ 0 then count % bs else bs)
      with e | ips
    · rw [hg] at h; cases h
    · rw [hg] at h
      rcases hr : buildMessages gen base count bs nb rest with e | msgs0
      · rw [hr] at h; cases h
      · rw [hr] at h
        cases h
        obtain ⟨h1, h2⟩ := ih msgs0 hr
        refine ⟨?_, ?_⟩
        · simp only [List.map_cons, h1]
          rw [hgen _ _ hg]
        · simp only [List.map_cons, h2]

theorem ceil_div_of_mod_eq_zero {count B : Nat} (hB : 0 < B)
    (hc : 0 < count) (hr : count % B = 0) :
    (count + B - 1) / B = count / B := by
  have hd := Nat.div_add_mod count B
  rw [hr, Nat.add_zero] at hd
  have h1 : count + B - 1 = (B - 1) + B * (count / B) := by omega
  rw [h1, Nat.add_mul_div_left _ _ hB, Nat.div_eq_of_lt (by omega), Nat.zero_add]

theorem ceil_div_of_mod_ne_zero {count B : Nat} (hB : 0 < B)
    (hr : count % B ≠ 0) :
    (count + B - 1) / B = count / B + 1 := by
  have hd := Nat.div_add_mod count B
  have hlt : count % B < B := Nat.mod_lt _ hB
  have h1 : count + B - 1 = (count % B - 1) + B * (count / B + 1) := by
    rw [Nat.mul_succ]
    omega
  rw [h1, Nat.add_mul_div_left _ _ hB, Nat.div_eq_of_lt (by omega), Nat.zero_add]

theorem sum_map_const_range {B : Nat} :
    ∀ (m : Nat) (f : Nat → Nat), (∀ i, i < m → f i = B) →
      ((List.range m).map f).sum = m * B := by
  intro m
  induction m with
  | zero => intro f _; simp
  | succ n ih =>
    intro f hf
    rw [List.range_succ, List.map_append, List.sum_append]
    simp only [List.map_cons, List.map_nil, List.sum_cons, List.sum_nil]
    rw [ih f (fun i hi => hf i (by omega)), hf n (by omega)]
    ring

/-- If `l.map f` equals `g` mapped over `List.range nb`, then `f` of the
`k`-th element of `l` is `g k`. -/
theorem map_eq_map_range_get {α β : Type} (f : α → β) (g : Nat → β)
    (l : List α) (nb k : Nat) (h : l.map f = (List.range nb).map g)
    (hk : k < l.length) : f (l.get ⟨k, hk⟩) = g k := by
  have hpt := congrArg (fun t => t[k]?) h
  simp only [List.getElem?_map] at hpt
  have hknb : k < nb := by
    have := congrArg List.length h
    simp only [List.length_map, List.length_range] at this
    omega
  rw [List.getElem?_eq_getElem hk,
    List.getElem?_eq_getElem (by simpa using hknb)] at hpt
  simp only [Option.map_some, List.getElem_range] at hpt
  rw [List.get_eq_getElem]
  exact Option.some.inj hpt

/-- Claim C2: for `N > 0` and `B > 0` the batch dispatcher produces exactly
`⌈N/B⌉` messages whose counts sum to `N`; every message except the last
carries exactly `B` addresses, the last carries `N mod B` if non-zero and
`B` otherwise; message `i` carries identifier `"<base>-<i>"`. -/
theorem batch_dispatcher_partitions (gen : Nat → Except String (List String))
    (base : String) (count B : Nat) (msgs : List QueueMessage)
    (hc : 0 < count) (hB : 0 < B)
    (hgen : ∀ n l, gen n = .ok l → l.length = n)
    (hok : GenerateAndPublishIPs gen base count B = .ok msgs) :
    msgs.length = (count + B - 1) / B ∧
    (msgs.map QueueMessage.count).sum = count ∧
    (∀ k, k + 1 < msgs.length → ∀ hk : k < msgs.length,
      (msgs.get ⟨k, hk⟩).count = B) ∧
    (∀ hk : msgs.length - 1 < msgs.length,
      (msgs.get ⟨msgs.length - 1, hk⟩).count =
        if count % B ≠ 0 then count % B else B) ∧
    (∀ k, ∀ hk : k < msgs.length,
      (msgs.get ⟨k, hk⟩).batchID = base ++ "-" ++ toString k) := by
  simp only [GenerateAndPublishIPs, if_neg (Nat.pos_iff_ne_zero.mp hc),
    if_neg (Nat.pos_iff_ne_zero.mp hB)] at hok
  obtain ⟨hcounts, hids⟩ := buildMessages_ok gen base count B
    (numBatches count B) hgen _ msgs hok
  have hq := Nat.div_add_mod count B
  have hnbval : numBatches count B = (count + B - 1) / B := rfl
  have hnb1 : 1 ≤ numBatches count B := by
    rw [hnbval, Nat.le_div_iff_mul_le hB]
    omega
  have hlen : msgs.length = numBatches count B := by
    have := congrArg List.length hcounts
    simpa using this
  have hdivpos : count % B = 0 → 1 ≤ count / B := by
    intro hr
    rw [hr, Nat.add_zero] at hq
    rcases Nat.eq_zero_or_pos (count / B) with h0 | h1
    · rw [h0, Nat.mul_zero] at hq; omega
    · exact h1
  refine ⟨hlen, ?_, ?_, ?_, ?_⟩
  · -- the counts sum to `count`
    rw [congrArg List.sum hcounts]
    obtain ⟨m, hm⟩ : ∃ m, numBatches count B = m + 1 :=
      ⟨numBatches count B - 1, by omega⟩
    rw [hm, List.range_succ, List.map_append, List.sum_append]
    simp only [List.map_cons, List.map_nil, List.sum_cons, List.sum_nil,
      Nat.add_sub_cancel, Nat.add_zero, eq_self_iff_true, true_and]
    have hfront : ((List.range m).map
        (fun i => if i = m ∧ count % B ≠ 0 then count % B else B)).sum =
        m * B := by
      apply sum_map_const_range
      intro i hi
      exact if_neg (by intro hand; omega)
    rw [hfront]
    by_cases hr : count % B = 0
    · rw [if_neg (by simp [hr])]
      have hnbq : numBatches count B = count / B := by
        rw [hnbval]; exact ceil_div_of_mod_eq_zero hB hc hr
      rw [hr, Nat.add_zero] at hq
      obtain ⟨qq, hqq⟩ : ∃ qq, count / B = qq + 1 :=
        ⟨count / B - 1, by have := hdivpos hr; omega⟩
      have hmq : m = qq := by omega
      rw [hmq]
      calc qq * B + B = B * (qq + 1) := by ring
        _ = count := by rw [← hqq, hq]
    · rw [if_pos hr]
      have hnbq : numBatches count B = count / B + 1 := by
        rw [hnbval]; exact ceil_div_of_mod_ne_zero hB hr
      have hmq : m = count / B := by omega
      rw [hmq]
      calc count / B * B + count % B = B * (count / B) + count % B := by ring
        _ = count := hq
  · -- every message but the last carries exactly `B`
    intro k hk1 hk
    have hget := map_eq_map_range_get QueueMessage.count _ msgs
      (numBatches count B) k hcounts hk
    rw [hget, if_neg (by intro hand; omega)]
  · -- the last message
    intro hk
    have hget := map_eq_map_range_get QueueMessage.count _ msgs
      (numBatches count B) (msgs.length - 1) hcounts hk
    rw [hget]
    by_cases hr : count % B = 0
    · rw [if_neg (by intro hand; exact hand.2 hr), if_neg (by simpa using hr)]
    · have hcond : msgs.length - 1 = numBatches count B - 1 ∧ count % B ≠ 0 :=
        ⟨by omega, hr⟩
      rw [if_pos hcond, if_pos hr]
  · -- identifiers
    intro k hk
    exact map_eq_map_range_get QueueMessage.batchID _ msgs
      (numBatches count B) k hids hk

/-- An always-succeeding IP generator used to instantiate the dispatcher
theorem concretely. -/
def okGen : Nat → Except String (List String) :=
  fun n => .ok (List.replicate n "ip")

/-- Witness for C2: the dispatcher theorem applied at `count = 250`,
`batchSize = 100`, where it produces three messages of counts 100, 100, 50
with identifiers `b-0`, `b-1`, `b-2`. -/
theorem batch_dispatcher_partitions_witness :
    ([⟨List.replicate 100 "ip", "b-0", 100⟩,
      ⟨List.replicate 100 "ip", "b-1", 100⟩,
      ⟨List.replicate 50 "ip", "b-2", 50⟩] : List QueueMessage).length =
      (250 + 100 - 1) / 100 :=
  (batch_dispatcher_partitions okGen "b" 250 100 _ (by decide) (by decide)
    (by intro n l h; injection h with h2; subst h2; simp) rfl).1

/-- `domain.ScanStatus` from `port-scanner/internal/domain/scan.go`. -/
inductive ScanStatus where
  | pending
  | running
  | completed
  | failed
  | timeout
deriving DecidableEq

/-- `domain.PortStatus`; the Go value `open` is spelled `opened` because
`open` is a Lean keyword. -/
inductive PortStatus where
  | opened
  | closed
  | filtered
deriving DecidableEq

/-- `domain.BannerInfo`.  The metadata map is embedded as an association
list; only its size is inspected by the embedded code. -/
structure BannerInfo where
  rawBanner : String
  service : String
  protocol : String
  version : String
  confidence : String
  metadata : List (String × String)
deriving DecidableEq

/-- `domain.Port`.  Times and durations are abstract `Nat` stamps. -/
structure Port where
  number : Nat
  status : PortStatus
  service : String
  banner : String
  version : String
  scanTime : Nat
  responseTime : Nat
  bannerInfo : Option BannerInfo
deriving DecidableEq

/-- `domain.ScanResult`. -/
structure ScanResult where
  ip : String
  isUp : Bool
  pingTime : Nat
  scanStartTime : Nat
  scanEndTime : Nat
  ports : List Port
  status : ScanStatus
  error : String
  batchID : String
  workerID : String
deriving DecidableEq

/-- `domain.NewScanResult`: a fresh pending result with an empty port
list; `now` embeds `time.Now()`. -/
def NewScanResult (ip batchID workerID : String) (now : Nat) : ScanResult :=
  { ip := ip
    isUp := false
    pingTime := 0
    scanStartTime := now
    scanEndTime := 0
    ports := []
    status := ScanStatus.pending
    error := ""
    batchID := batchID
    workerID := workerID }

/-- `ScanResult.GetOpenPorts`: the ports whose status is open. -/
def GetOpenPorts (sr : ScanResult) : List Port :=
  sr.ports.filter (fun p => p.status = PortStatus.opened)

/-- `domain.ScanConfig` (durations as abstract `Nat`). -/
structure ScanConfig where
  pingTimeout : Nat
  connectTimeout : Nat
  bannerTimeout : Nat
  maxRetries : Nat
  retryDelay : Nat
  concurrency : Nat
  zgrabConcurrency : Nat
  portRange : List Nat
  defaultPorts : List Nat
  enableBanner : Bool
  enablePing : Bool
  priorityPorts : List Nat
deriving DecidableEq

/-- `domain.NewDefaultScanConfig` (durations in seconds). -/
def NewDefaultScanConfig : ScanConfig :=
  { pingTimeout := 5
    connectTimeout := 3
    bannerTimeout := 2
    maxRetries := 3
    retryDelay := 1
    concurrency := 100
    zgrabConcurrency := 20
    portRange := []
    defaultPorts := [21, 22, 23, 25, 53, 80, 110, 143, 443, 993, 995,
      3306, 3389, 5432, 8080, 8443]
    enableBanner := true
    enablePing := true
    priorityPorts := [80, 443, 22, 21, 25, 3306, 5432] }

/-- `ScannerService.ScanIP` from the scanner domain: ping gate (when
enabled) with early completed return on a down host, then the port sweep.
The ping outcome and the port sweep (`ScanPorts`, which never returns an
error in the Go source) are parameters embedding the network; `startTime`
and `endTime` embed the clock.  Returns the result together with the
returned error. -/
def ScanIP (pingHost : Except String (Bool × Nat))
    (scanPorts : List Nat → List Port) (ip batchID workerID : String)
    (config : ScanConfig) (startTime endTime : Nat) :
    ScanResult × Option String :=
  let result := { NewScanResult ip batchID workerID startTime with
                  status := ScanStatus.running }
  if config.enablePing then
    match pingHost with
    | .error e =>
      ({ result with
         scanEndTime := endTime
         status := ScanStatus.failed
         error := "ping failed: " ++ e }, some e)
    | .ok (isUp, pingTime) =>
      let r1 := { result with isUp := isUp, pingTime := pingTime }
      if isUp then
        let portsToScan := if config.portRange.length > 0 then
          config.portRange else config.defaultPorts
        ({ r1 with
           ports := scanPorts portsToScan
           scanEndTime := endTime
           status := ScanStatus.completed }, none)
      else
        ({ r1 with
           scanEndTime := endTime
           status := ScanStatus.completed }, none)
  else
    let r1 := { result with isUp := true }
    let portsToScan := if config.portRange.length > 0 then
      config.portRange else config.defaultPorts
    ({ r1 with
       ports := scanPorts portsToScan
       scanEndTime := endTime
       status := ScanStatus.completed }, none)

/-- Claim C9: every scan result with status completed and `is_up = false`
has an empty port list; moreover, when ping is enabled and reports the
host down, the returned completed result does not depend on the port
sweep at all (no port is scanned or recorded). -/
theorem completed_down_has_empty_ports :
    (∀ (ping : Except String (Bool × Nat)) (sp : List Nat → List Port)
        (ip b w : String) (cfg : ScanConfig) (t1 t2 : Nat),
      (ScanIP ping sp ip b w cfg t1 t2).1.status = ScanStatus.completed →
      (ScanIP ping sp ip b w cfg t1 t2).1.isUp = false →
      (ScanIP ping sp ip b w cfg t1 t2).1.ports = []) ∧
    (∀ (t : Nat) (sp1 sp2 : List Nat → List Port) (ip b w : String)
        (cfg : ScanConfig) (t1 t2 : Nat), cfg.enablePing = true →
      ScanIP (.ok (false, t)) sp1 ip b w cfg t1 t2 =
        ScanIP (.ok (false, t)) sp2 ip b w cfg t1 t2) := by
  constructor
  · intro ping sp ip b w cfg t1 t2 hst hup
    by_cases hp : cfg.enablePing
    · cases ping with
      | error e => simp [ScanIP, hp, NewScanResult] at hst
      | ok pr =>
        obtain ⟨isUp, pt⟩ := pr
        cases isUp
        · simp [ScanIP, hp, NewScanResult]
        · simp [ScanIP, hp, NewScanResult] at hup
    · simp [ScanIP, hp, NewScanResult] at hup
  · intro t sp1 sp2 ip b w cfg t1 t2 hp
    simp [ScanIP, hp]

/-- Witness for C9: ping enabled, host down — the completed result carries
no ports. -/
theorem completed_down_has_empty_ports_witness :
    (ScanIP (.ok (false, 1)) (fun _ => []) "1.2.3.4" "b" "w"
      NewDefaultScanConfig 0 1).1.ports = [] :=
  completed_down_has_empty_ports.1 (.ok (false, 1)) (fun _ => [])
    "1.2.3.4" "b" "w" NewDefaultScanConfig 0 1 (by decide) (by decide)

/-- Whether `needle` is a prefix of `hay`, on character lists (embedding of
the substring tests done with `strings.Contains` in the Go sources). -/
def matchesAt : List Char → List Char → Bool
  | [], _ => true
  | _ :: _, [] => false
  | a :: as, b :: bs => a = b && matchesAt as bs

/-- Whether `needle` occurs somewhere in `hay` (embedding of
`strings.Contains`). -/
def containsChars (needle : List Char) : List Char → Bool
  | [] => matchesAt needle []
  | b :: bs => matchesAt needle (b :: bs) || containsChars needle bs

/-- `strings.Contains hay needle`. -/
def strContains (hay needle : String) : Bool :=
  containsChars needle.data hay.data

/-- Splitting a character list on the dot separator (embedding of the
`strings.Split(ip, ".")` call of the ping service). -/
def splitOnDot (cur : List Char) : List Char → List (List Char)
  | [] => [cur.reverse]
  | c :: cs =>
    if c = '.' then cur.reverse :: splitOnDot [] cs
    else splitOnDot (c :: cur) cs

/-- The numeric value of a digit string (embedding of `strconv.Atoi` on
all-digit groups). -/
def digitsVal (p : List Char) : Nat :=
  p.foldl (fun n c => n * 10 + (c.toNat - 48)) 0

/-- `SafePingService.isValidIP` (ping service): four dot-separated groups
of one to three digits, each with numeric value at most 255. -/
def isValidIP (s : String) : Bool :=
  let parts := splitOnDot [] s.data
  parts.length = 4 && parts.all (fun p =>
    1 ≤ p.length && p.length ≤ 3 && p.all Char.isDigit &&
    digitsVal p ≤ 255)

/-- The classification of the error carried by a `PingResult`:
`timeout` embeds the `"ping timeout"` wrap on a context-deadline error,
`notAvailable` the `"ping command not available"` wrap, `failed` the
generic `"ping failed"` wrap, and `invalidFormat` the input-validation
error of `PingHost`. -/
inductive PingErrKind where
  | timeout
  | notAvailable
  | failed
  | invalidFormat
deriving DecidableEq

/-- `ping.PingResult`: liveness, duration and the (possibly absent)
error. -/
structure PingResult where
  isUp : Bool
  duration : Nat
  error : Option PingErrKind
deriving DecidableEq

/-- `SafePingService.analyzePingResult`: classification of the outcome of
the ping process.  `cmdErr` embeds `cmd.Run()`'s error (its message as a
string, `none` on success) and `ctxExpired` whether `ctx.Err() != nil`. -/
def analyzePingResult (cmdErr : Option String) (duration : Nat)
    (ctxExpired : Bool) : PingResult :=
  match cmdErr with
  | some e =>
    if ctxExpired then
      { isUp := false, duration := duration, error := some .timeout }
    else if strContains e "executable file not found" then
      { isUp := false, duration := duration, error := some .notAvailable }
    else if strContains e "100% packet loss" ||
        strContains e "Destination Host Unreachable" then
      { isUp := false, duration := duration, error := none }
    else
      { isUp := false, duration := duration, error := some .failed }
  | none => { isUp := true, duration := duration, error := none }

/-- `SafePingService.PingHost`: validate the dotted-quad format, then run
the ping command and classify its outcome. -/
def PingHost (ip : String) (cmdErr : Option String) (duration : Nat)
    (ctxExpired : Bool) : PingResult :=
  if isValidIP ip then analyzePingResult cmdErr duration ctxExpired
  else { isUp := false, duration := 0, error := some .invalidFormat }

/-- Claim C6: for a validly formatted IPv4 input, a "host unreachable" or
"100% packet loss" outcome yields `is_up = false` with no error; deadline
expiry yields `is_up = false` with a timeout error; an unavailable ping
command yields `is_up = false` with an environment (not-available)
error. -/
theorem ping_outcome_classification (ip e : String) (d : Nat)
    (hv : isValidIP ip = true) :
    ((strContains e "100% packet loss" = true ∨
        strContains e "Destination Host Unreachable" = true) →
      strContains e "executable file not found" = false →
      PingHost ip (some e) d false =
        { isUp := false, duration := d, error := none }) ∧
    (PingHost ip (some e) d true =
      { isUp := false, duration := d, error := some .timeout }) ∧
    (strContains e "executable file not found" = true →
      PingHost ip (some e) d false =
        { isUp := false, duration := d, error := some .notAvailable }) := by
  refine ⟨?_, ?_, ?_⟩
  · intro hloss hnf
    simp only [PingHost, hv, if_true, analyzePingResult, if_false, hnf,
      Bool.false_eq_true]
    rcases hloss with h | h <;> simp [h]
  · simp [PingHost, hv, analyzePingResult]
  · intro hnf
    simp [PingHost, hv, analyzePingResult, hnf]

/-- Witness for C6: the classification applied at the concrete input
8.8.8.8 with a packet-loss message, a deadline expiry, and a missing ping
binary. -/
theorem ping_outcome_classification_witness :
    PingHost "8.8.8.8" (some "exit status 1: 100% packet loss") 3 false =
      { isUp := false, duration := 3, error := none } ∧
    PingHost "8.8.8.8" (some "signal: killed") 5 true =
      { isUp := false, duration := 5, error := some .timeout } ∧
    PingHost "8.8.8.8"
        (some "exec: ping: executable file not found in PATH") 0 false =
      { isUp := false, duration := 0, error := some .notAvailable } :=
  ⟨(ping_outcome_classification "8.8.8.8" "exit status 1: 100% packet loss"
      3 (by decide)).1 (Or.inl (by decide)) (by decide),
    (ping_outcome_classification "8.8.8.8" "signal: killed" 5
      (by decide)).2.1,
    (ping_outcome_classification "8.8.8.8"
      "exec: ping: executable file not found in PATH" 0 (by decide)).2.2
      (by decide)⟩

/-- `ZGrabBannerService.calculateResultPriority` from
`port-scanner/internal/infrastructure/banner/zgrab.go`: base score by
confidence ("zgrab2" 100, "banner" 50, "port" 10, otherwise 0), plus 20
for a version, plus 10 for a raw banner longer than 10 characters, plus 5
for non-empty metadata. -/
def calculateResultPriority (b : BannerInfo) : Nat :=
  (if b.confidence = "zgrab2" then 100
   else if b.confidence = "banner" then 50
   else if b.confidence = "port" then 10
   else 0) +
  (if b.version ≠ "" then 20 else 0) +
  (if b.rawBanner.length > 10 then 10 else 0) +
  (if b.metadata.length > 0 then 5 else 0)

/-- The scoring formula exactly as the specification words it:
`score = base(confidence) + 20·has_version + 10·(|raw_banner| > 10) +
5·(|metadata| > 0)` with `base(probe) = 100` (the probe-level confidence
is the string "zgrab2" in the data model), `base(banner) = 50`,
`base(port) = 10`. -/
def claimScore (b : BannerInfo) : Nat :=
  (if b.confidence = "zgrab2" then 100
   else if b.confidence = "banner" then 50
   else if b.confidence = "port" then 10
   else 0) +
  (if b.version ≠ "" then 20 else 0) +
  (if b.rawBanner.length > 10 then 10 else 0) +
  (if b.metadata.length > 0 then 5 else 0)

/-- The selection loop of `parseZGrabOutput`: fold over the analyzed
documents keeping the first one whose priority strictly exceeds the
running maximum (which starts at `-1`). -/
def selectBestAux : Int → Option BannerInfo → List BannerInfo →
    Option BannerInfo
  | _, best, [] => best
  | hi, best, b :: rest =>
    if hi < (calculateResultPriority b : Int) then
      selectBestAux (calculateResultPriority b) (some b) rest
    else selectBestAux hi best rest

/-- The result selection of `ZGrabBannerService.parseZGrabOutput` over the
list of successfully parsed and analyzed documents. -/
def selectBestResult (l : List BannerInfo) : Option BannerInfo :=
  selectBestAux (-1) none l

/-- Reference selector: the first document of maximal priority (everything
strictly earlier scores strictly less, everything later scores no
more). -/
def pickFirstMax : List BannerInfo → Option BannerInfo
  | [] => none
  | b :: rest =>
    match pickFirstMax rest with
    | none => some b
    | some c =>
      if calculateResultPriority b < calculateResultPriority c then some c
      else some b

theorem selectBestAux_eq :
    ∀ (l : List BannerInfo) (hi : Int) (best : Option BannerInfo),
      selectBestAux hi best l =
        match pickFirstMax l with
        | none => best
        | some c =>
          if hi < (calculateResultPriority c : Int) then some c else best := by
  intro l
  induction l with
  | nil => intro hi best; rfl
  | cons b rest ih =>
    intro hi best
    simp only [selectBestAux, pickFirstMax]
    rcases hpf : pickFirstMax rest with _ | c
    · by_cases hb : hi < (calculateResultPriority b : Int)
      · rw [if_pos hb, ih]
        simp only [hpf]
        rw [if_pos hb]
      · rw [if_neg hb, ih]
        simp only [hpf]
        rw [if_neg hb]
    · by_cases hbc : calculateResultPriority b < calculateResultPriority c
      · have hbc' : (calculateResultPriority b : Int) <
            (calculateResultPriority c : Int) := by exact_mod_cast hbc
        by_cases hb : hi < (calculateResultPriority b : Int)
        · rw [if_pos hb, ih]
          simp only [hpf, if_pos hbc]
          rw [if_pos hbc', if_pos (lt_trans hb hbc')]
        · rw [if_neg hb, ih]
          simp only [hpf, if_pos hbc]
      · have hbc' : ¬ (calculateResultPriority b : Int) <
            (calculateResultPriority c : Int) := by exact_mod_cast hbc
        by_cases hb : hi < (calculateResultPriority b : Int)
        · rw [if_pos hb, ih]
          simp only [hpf, if_neg hbc]
          rw [if_neg hbc', if_pos hb]
        · have hc : ¬ hi < (calculateResultPriority c : Int) := by omega
          rw [if_neg hb, ih]
          simp only [hpf, if_neg hbc]
          rw [if_neg hc, if_neg hb]

theorem pickFirstMax_eq_none :
    ∀ l : List BannerInfo, pickFirstMax l = none ↔ l = [] := by
  intro l
  cases l with
  | nil => simp [pickFirstMax]
  | cons b rest =>
    simp only [pickFirstMax]
    rcases pickFirstMax rest with _ | c
    · simp
    · by_cases h : calculateResultPriority b < calculateResultPriority c <;>
        simp [h]

theorem pickFirstMax_spec :
    ∀ (l : List BannerInfo) (b : BannerInfo), pickFirstMax l = some b →
      ∃ pre post, l = pre ++ b :: post ∧
        (∀ c ∈ pre,
          calculateResultPriority c < calculateResultPriority b) ∧
        (∀ c ∈ post,
          calculateResultPriority c ≤ calculateResultPriority b) := by
  intro l
  induction l with
  | nil => intro b h; simp [pickFirstMax] at h
  | cons a rest ih =>
    intro b h
    simp only [pickFirstMax] at h
    rcases hpf : pickFirstMax rest with _ | c
    · simp only [hpf] at h
      cases h
      have hrest : rest = [] := (pickFirstMax_eq_none rest).mp hpf
      exact ⟨[], [], by simp [hrest], by simp, by simp [hrest]⟩
    · simp only [hpf] at h
      obtain ⟨pre, post, hsplit, hpre, hpost⟩ := ih c hpf
      by_cases hac : calculateResultPriority a < calculateResultPriority c
      · rw [if_pos hac] at h
        cases h
        refine ⟨a :: pre, post, by simp [hsplit], ?_, hpost⟩
        intro x hx
        rcases List.mem_cons.mp hx with hx | hx
        · rw [hx]; exact hac
        · exact hpre x hx
      · rw [if_neg hac] at h
        cases h
        refine ⟨[], rest, by simp, by simp, ?_⟩
        intro x hx
        rw [hsplit] at hx
        rcases List.mem_append.mp hx with hx | hx
        · exact le_of_lt (lt_of_lt_of_le (hpre x hx) (by omega))
        · rcases List.mem_cons.mp hx with hx | hx
          · rw [hx]; omega
          · exact le_trans (hpost x hx) (by omega)

/-- Claim C8: each parsed probe document is scored by the formula
`base(confidence) + 20·has_version + 10·(|raw_banner| > 10) +
5·(|metadata| > 0)` (base 100 for probe-level/"zgrab2", 50 for banner, 10
for port), and the coordinator returns a document of maximal score,
breaking ties in favour of the earlier document. -/
theorem banner_priority_selection :
    (∀ b : BannerInfo, calculateResultPriority b = claimScore b) ∧
    (∀ l : List BannerInfo, l ≠ [] →
      ∃ b pre post, selectBestResult l = some b ∧ l = pre ++ b :: post ∧
        (∀ c ∈ pre,
          calculateResultPriority c < calculateResultPriority b) ∧
        (∀ c ∈ l,
          calculateResultPriority c ≤ calculateResultPriority b)) := by
  constructor
  · intro b; rfl
  · intro l hl
    have hsel : selectBestResult l = pickFirstMax l := by
      rw [selectBestResult, selectBestAux_eq]
      rcases hpf : pickFirstMax l with _ | c
      · simp only [hpf]
      · have hgt : (-1 : Int) < (calculateResultPriority c : Int) := by
          have : (0 : Int) ≤ (calculateResultPriority c : Int) := by
            exact_mod_cast Nat.zero_le _
          omega
        simp only [hpf]
        rw [if_pos hgt]
    rcases hpf : pickFirstMax l with _ | b
    · exact absurd ((pickFirstMax_eq_none l).mp hpf) hl
    · obtain ⟨pre, post, hsplit, hpre, hpost⟩ := pickFirstMax_spec l b hpf
      refine ⟨b, pre, post, by rw [hsel, hpf], hsplit, hpre, ?_⟩
      intro c hc
      rw [hsplit] at hc
      rcases List.mem_append.mp hc with hx | hx
      · exact le_of_lt (hpre c hx)
      · rcases List.mem_cons.mp hx with hx | hx
        · rw [hx]
        · exact hpost c hx

/-- Witness for C8: on two documents where the second (probe-level) scores
higher than the first (banner-level), a maximal document exists and is
selected. -/
theorem banner_priority_selection_witness :
    ∃ b pre post,
      selectBestResult
        [{ rawBanner := "220 FTP", service := "ftp", protocol := "tcp",
           version := "", confidence := "banner", metadata := [] },
         { rawBanner := "SSH-2.0-OpenSSH_8.9p1", service := "ssh",
           protocol := "tcp", version := "8.9", confidence := "zgrab2",
           metadata := [("k", "v")] }] = some b ∧
      [{ rawBanner := "220 FTP", service := "ftp", protocol := "tcp",
         version := "", confidence := "banner", metadata := [] },
       { rawBanner := "SSH-2.0-OpenSSH_8.9p1", service := "ssh",
         protocol := "tcp", version := "8.9", confidence := "zgrab2",
         metadata := [("k", "v")] }] = pre ++ b :: post ∧
      (∀ c ∈ pre,
        calculateResultPriority c < calculateResultPriority b) ∧
      (∀ c ∈ [{ rawBanner := "220 FTP", service := "ftp",
                protocol := "tcp", version := "", confidence := "banner",
                metadata := [] },
              { rawBanner := "SSH-2.0-OpenSSH_8.9p1", service := "ssh",
                protocol := "tcp", version := "8.9",
                confidence := "zgrab2", metadata := [("k", "v")] }],
        calculateResultPriority c ≤ calculateResultPriority b) :=
  banner_priority_selection.2 _ (by decide)

/-- A record published on one of the three egress queues:
`PublishScanResult`, `PublishEnrichmentMessage`, `PublishServiceAnalysis`
of `RabbitMQManager`. -/
inductive PubRec where
  | scanResult (r : ScanResult)
  | enrichment (ip : String) (isUp : Bool) (batchID : String)
  | serviceAnalysis (ip : String) (openPorts : List Port) (batchID : String)
deriving DecidableEq

/-- An acknowledgement action on a delivery: `Ack` or `Nack` with its
requeue flag. -/
inductive AckAction where
  | ack
  | nack (requeue : Bool)
deriving DecidableEq

def isEnrichment : PubRec → Bool
  | .enrichment _ _ _ => true
  | _ => false

def isScanResult : PubRec → Bool
  | .scanResult _ => true
  | _ => false

def isServiceAnalysis : PubRec → Bool
  | .serviceAnalysis _ _ _ => true
  | _ => false

/-- The failed-scan result that `handleMessage` constructs when the scan
handler returns an error. -/
def failedScanResult (ip err batchID workerID : String) (t1 t2 : Nat) :
    ScanResult :=
  { ip := ip
    isUp := false
    pingTime := 0
    scanStartTime := t1
    scanEndTime := t2
    ports := []
    status := ScanStatus.failed
    error := err
    batchID := batchID
    workerID := workerID }

/-- The per-IP body of `RabbitMQManager.handleMessage`
(`port-scanner/internal/infrastructure/queue/rabbitmq.go`): run the scan
handler.  On a handler error, attempt to publish the failed result and
then an `is_up = false` enrichment record (each failure only logs).  On
success, default the result's batch id and attempt to publish the scan
result — a failure here hits the `continue` of rabbitmq.go:208-211 and
suppresses the enrichment and service-analysis publishes for this IP —
then the enrichment record, and, only when open ports exist, a
service-analysis record (these two failures only log).  `scan` embeds the
registered scan handler, `pub` the bus's acceptance of each publish
attempt, `t1` and `t2` the clock.  Returns the successfully published
records. -/
def processIP (scan : String → Except String ScanResult)
    (pub : PubRec → Bool) (batchID workerID : String) (t1 t2 : Nat)
    (ip : String) : List PubRec :=
  match scan ip with
  | .error e =>
    (if pub (PubRec.scanResult (failedScanResult ip e batchID workerID t1 t2))
     then [PubRec.scanResult (failedScanResult ip e batchID workerID t1 t2)]
     else []) ++
    (if pub (PubRec.enrichment ip false batchID)
     then [PubRec.enrichment ip false batchID]
     else [])
  | .ok r =>
    let r1 := if r.batchID = "" then { r with batchID := batchID } else r
    if pub (PubRec.scanResult r1) then
      [PubRec.scanResult r1] ++
      (if pub (PubRec.enrichment r1.ip r1.isUp r1.batchID)
       then [PubRec.enrichment r1.ip r1.isUp r1.batchID]
       else []) ++
      (if (GetOpenPorts r1).length > 0 then
        (if pub (PubRec.serviceAnalysis r1.ip (GetOpenPorts r1) r1.batchID)
         then [PubRec.serviceAnalysis r1.ip (GetOpenPorts r1) r1.batchID]
         else [])
       else [])
    else []

/-- The scan result whose fields the published enrichment record reflects:
the failed placeholder on a handler error, otherwise the handler's result
with its batch id defaulted. -/
def resultOf (scan : String → Except String ScanResult)
    (batchID workerID : String) (t1 t2 : Nat) (ip : String) : ScanResult :=
  match scan ip with
  | .error e => failedScanResult ip e batchID workerID t1 t2
  | .ok r => if r.batchID = "" then { r with batchID := batchID } else r

/-- `RabbitMQManager.handleMessage` on one delivery: `none` embeds a body
that fails to decode (`json.Unmarshal` error).  Returns the published
records, the acknowledgement actions, and the returned error. -/
def handleMessage (scan : String → Except String ScanResult)
    (pub : PubRec → Bool) (workerID : String) (t1 t2 : Nat)
    (body : Option QueueMessage) :
    List PubRec × List AckAction × Option String :=
  match body with
  | none => ([], [], some "unmarshal failed")
  | some msg =>
    if msg.ips.length = 0 then
      ([], [AckAction.ack], some "no IP addresses in message")
    else
      ((msg.ips.filter (fun s => !(s == ""))).flatMap
          (processIP scan pub msg.batchID workerID t1 t2),
        [AckAction.ack], none)

/-- The consumer loop body of `RabbitMQManager.ConsumeIPs`: run
`handleMessage`; on error negative-acknowledge with requeue. -/
def consumeOne (scan : String → Except String ScanResult)
    (pub : PubRec → Bool) (workerID : String) (t1 t2 : Nat)
    (body : Option QueueMessage) : List PubRec × List AckAction :=
  match handleMessage scan pub workerID t1 t2 body with
  | (recs, acks, none) => (recs, acks)
  | (recs, acks, some _) => (recs, acks ++ [AckAction.nack true])

/-- `RabbitMQManager.ConsumeIPs`: consumes every delivery through the
manager's own `handleMessage`; the `handler` argument of the Go method is
never referenced by its body. -/
def ConsumeIPs (handler : QueueMessage → Option String)
    (scan : String → Except String ScanResult) (pub : PubRec → Bool)
    (workerID : String) (t1 t2 : Nat)
    (deliveries : List (Option QueueMessage)) :
    List (List PubRec × List AckAction) :=
  deliveries.map (consumeOne scan pub workerID t1 t2)

/-- A bus that accepts every publish attempt. -/
def pubAll : PubRec → Bool := fun _ => true

/-- A bus that rejects exactly the scan-result publishes (embedding a
`PublishScanResult` failure). -/
def pubDropScanResult : PubRec → Bool := fun x => !(isScanResult x)

/-- `ScanEngineService.processMessage` (scan-engine application service):
the per-batch dispatcher that would publish enrichment only for hosts that
are up; it is registered through `StartScanning` but, per claim C10, never
invoked.  Returns its published records and its (always nil) error. -/
def processMessage (scanIP : String → Except String ScanResult)
    (msg : QueueMessage) : List PubRec × Option String :=
  (msg.ips.flatMap (fun ip =>
    match scanIP ip with
    | .error _ => []
    | .ok result =>
      [PubRec.scanResult result] ++
      (if result.isUp then
        [PubRec.enrichment result.ip true msg.batchID]
       else []) ++
      (if (GetOpenPorts result).length > 0 then
        [PubRec.serviceAnalysis result.ip (GetOpenPorts result) msg.batchID]
       else [])), none)

/-- Claim C1 as amended: for a non-empty IP entry of a consumed batch
message, when the bus accepts this IP's publishes, processing publishes
exactly one enrichment record — whether the scan succeeded, failed, or
found the host down — whose fields come from the resulting scan record,
and a service-analysis record iff that record's set of open ports is
non-empty; when the scan succeeded but the scan-result publish fails,
nothing at all is published for that IP (the `continue` of
rabbitmq.go:208-211); and `handleMessage` processes exactly the non-empty
entries of the message this way. -/
theorem per_ip_enrichment_service_analysis
    (scan : String → Except String ScanResult) (pub : PubRec → Bool)
    (b w ip : String) (t1 t2 : Nat)
    (hwf : ∀ r, scan ip = .ok r → r.ip = ip) :
    ((∀ x, pub x = true) →
      (processIP scan pub b w t1 t2 ip).countP isEnrichment = 1 ∧
      PubRec.enrichment ip (resultOf scan b w t1 t2 ip).isUp
          (resultOf scan b w t1 t2 ip).batchID ∈
        processIP scan pub b w t1 t2 ip ∧
      ((∃ x ∈ processIP scan pub b w t1 t2 ip,
          isServiceAnalysis x = true) ↔
        GetOpenPorts (resultOf scan b w t1 t2 ip) ≠ [])) ∧
    (∀ r, scan ip = .ok r →
      pub (PubRec.scanResult (resultOf scan b w t1 t2 ip)) = false →
      processIP scan pub b w t1 t2 ip = []) ∧
    (∀ msg : QueueMessage,
      (handleMessage scan pub w t1 t2 (some msg)).1 =
        (msg.ips.filter (fun s => !(s == ""))).flatMap
          (processIP scan pub msg.batchID w t1 t2)) := by
  refine ⟨?_, ?_, ?_⟩
  · intro hpub
    refine ⟨?_, ?_, ?_⟩
    · -- exactly one enrichment record
      rcases hscan : scan ip with e | r
      · simp [processIP, hscan, isEnrichment, List.countP_append,
          List.countP_cons, hpub]
      · simp only [processIP, hscan, hpub, if_true]
        by_cases hop : (GetOpenPorts
            (if r.batchID = "" then { r with batchID := b } else r)).length
            > 0
        · rw [if_pos hop]
          simp [isEnrichment, List.countP_append, List.countP_cons, hpub]
        · rw [if_neg hop]
          simp [isEnrichment, List.countP_append, List.countP_cons, hpub]
    · -- the enrichment record carries the result's fields for this ip
      rcases hscan : scan ip with e | r
      · simp [processIP, hscan, resultOf, failedScanResult, hpub]
      · have hip := hwf r hscan
        simp only [processIP, hscan, resultOf, hpub, if_true]
        by_cases hb : r.batchID = ""
        · simp [hb, hip, hpub]
        · simp [hb, hip, hpub]
    · -- service analysis iff open ports
      rcases hscan : scan ip with e | r
      · simp [processIP, hscan, resultOf, failedScanResult,
          isServiceAnalysis, GetOpenPorts, hpub]
      · simp only [processIP, hscan, resultOf, hpub, if_true]
        set r1 := (if r.batchID = "" then { r with batchID := b } else r)
          with hr1
        by_cases hop : (GetOpenPorts r1).length > 0
        · rw [if_pos hop]
          refine iff_of_true
            ⟨PubRec.serviceAnalysis r1.ip (GetOpenPorts r1) r1.batchID,
              by simp [hpub], rfl⟩ ?_
          intro hnil
          rw [hnil] at hop
          simp at hop
        · rw [if_neg hop]
          refine iff_of_false ?_ ?_
          · rintro ⟨x, hx, hsa⟩
            simp [hpub] at hx
            rcases hx with rfl | rfl <;> simp [isServiceAnalysis] at hsa
          · intro hne
            exact hne (by
              have hz : (GetOpenPorts r1).length = 0 := by omega
              exact List.length_eq_zero.mp hz)
  · -- a failed scan-result publish on the success path suppresses all
    intro r hr hfail
    simp only [resultOf, hr] at hfail
    simp [processIP, hr, hfail]
  · -- the message loop processes exactly the non-empty entries
    intro msg
    by_cases hlen : msg.ips.length = 0
    · rw [List.length_eq_zero] at hlen
      simp [handleMessage, hlen]
    · simp [handleMessage, hlen]

/-- A concrete scan handler used to instantiate the message-handling
theorems: always succeeds with one open port 80 and an unset batch id. -/
def scanStub : String → Except String ScanResult := fun s =>
  .ok
    { ip := s
      isUp := true
      pingTime := 1
      scanStartTime := 0
      scanEndTime := 1
      ports := [{ number := 80
                  status := PortStatus.opened
                  service := "http"
                  banner := "nginx/1.24.0"
                  version := "1.24.0"
                  scanTime := 0
                  responseTime := 1
                  bannerInfo := none }]
      status := ScanStatus.completed
      error := ""
      batchID := ""
      workerID := "w" }

/-- Counterexample to claim C1 as originally stated: for an IP whose scan
succeeded with an open port, a failed scan-result publish makes the
consumer publish zero enrichment records and no service-analysis record,
even though the result's open-port set is non-empty. -/
theorem publish_failure_suppresses_enrichment :
    (processIP scanStub pubDropScanResult "batch-1" "w" 0 1
        "1.2.3.4").countP isEnrichment = 0 ∧
    (¬ ∃ x ∈ processIP scanStub pubDropScanResult "batch-1" "w" 0 1
        "1.2.3.4", isServiceAnalysis x = true) ∧
    GetOpenPorts (resultOf scanStub "batch-1" "w" 0 1 "1.2.3.4") ≠ [] := by
  decide

/-- Witness for C1: the per-IP theorem applied to the concrete handler
`scanStub` under an all-accepting bus at 1.2.3.4. -/
theorem per_ip_enrichment_service_analysis_witness :
    (processIP scanStub pubAll "batch-1" "w" 0 1 "1.2.3.4").countP
      isEnrichment = 1 :=
  ((per_ip_enrichment_service_analysis scanStub pubAll "batch-1" "w"
      "1.2.3.4" 0 1
      (by intro r h; injection h with h2; rw [← h2])).1 (fun _ => rfl)).1

/-- Counterexample to claim C5: a delivery whose body does not decode is
negative-acknowledged with requeue by the consumer loop, and is not
acknowledged. -/
theorem malformed_message_not_acked :
    AckAction.nack true ∈ (consumeOne scanStub pubAll "w" 0 1 none).2 ∧
    AckAction.ack ∉ (consumeOne scanStub pubAll "w" 0 1 none).2 := by
  decide

/-- Claim C5 as amended: a delivery whose body fails to decode is
negative-acknowledged with requeue (and nothing is published for it); it
is the decodable message with an empty IP list that is acknowledged and
dropped. -/
theorem malformed_message_nacked_requeued
    (scan : String → Except String ScanResult) (pub : PubRec → Bool)
    (w : String) (t1 t2 : Nat) :
    consumeOne scan pub w t1 t2 none = ([], [AckAction.nack true]) ∧
    (∀ bid c, (handleMessage scan pub w t1 t2 (some ⟨[], bid, c⟩)).2.1 =
      [AckAction.ack]) := by
  exact ⟨rfl, fun bid c => rfl⟩

/-- Claim C10: `ConsumeIPs` never invokes the handler argument — its
result is the same for any two handlers, every delivery being processed by
the manager's own `handleMessage` via `consumeOne`; in particular the
registered `processMessage` dispatcher is never executed. -/
theorem consume_ignores_handler :
    (∀ (h1 h2 : QueueMessage → Option String)
        (scan : String → Except String ScanResult) (pub : PubRec → Bool)
        (w : String) (t1 t2 : Nat) (ds : List (Option QueueMessage)),
      ConsumeIPs h1 scan pub w t1 t2 ds =
        ConsumeIPs h2 scan pub w t1 t2 ds) ∧
    (∀ (scanIP scan : String → Except String ScanResult)
        (pub : PubRec → Bool) (w : String) (t1 t2 : Nat)
        (ds : List (Option QueueMessage)),
      ConsumeIPs (fun m => (processMessage scanIP m).2) scan pub w t1 t2
          ds =
        ds.map (consumeOne scan pub w t1 t2)) := by
  exact ⟨fun _ _ _ _ _ _ _ _ => rfl, fun _ _ _ _ _ _ _ => rfl⟩

end Orwell
